import Mathlib

/-!
Shallow embedding of `src/similarity.py` (mlb_stats): per-pitch-type and
per-pitcher mean aggregation over Statcast pitch events, and Euclidean
nearest-neighbour ranking of pitchers (`find_similar`).

Modelling conventions, chosen once and used throughout:
- a nullable numeric cell (pandas `NaN`) is `Option Rat`, `none` meaning
  missing; `groupby(...).mean()` skips missing values per column and yields
  a missing mean when a column has no present value in a group;
- the source reports each failure by printing a distinct message and
  returning an empty DataFrame; each such early-return branch is modelled
  as a distinct constructor of `SimError`;
- `groupby` emits group keys sorted ascending (pandas `sort=True` default);
- `sort_values('distance')` is modelled as an ascending sort on the
  distance key with missing (NaN) keys placed after all present ones
  (pandas default `na_position` puts NaN last); the model's
  `List.insertionSort` is additionally stable, which determinizes the
  relative order of equal keys — an order the source's default unstable
  `kind='quicksort'` leaves unspecified, so no theorem below relies on
  where tied rows land, only on sortedness, membership and length, which
  hold for every admissible `sort_values` output;
- the name lookup (`playerid_reverse_lookup` plus `.map`) is an external
  collaborator, passed in as a function `Nat → Option String`.
-/

/-- Statcast numeric measurement columns used by `similarity.py`. -/
inductive Feature where
  | releaseSpeed
  | releaseSpinRate
  | releasePosX
  | releasePosZ
  | releaseExtension
  | pfxX
  | pfxZ
  | plateX
  | plateZ
deriving DecidableEq

/-- One pitch-level Statcast row: the pitcher id, the pitch-type code and
the nullable numeric measurements read by `similarity.py`. -/
structure PitchEvent where
  pitcher : Nat
  pitch_type : String
  release_speed : Option Rat
  release_spin_rate : Option Rat
  release_pos_x : Option Rat
  release_pos_z : Option Rat
  release_extension : Option Rat
  pfx_x : Option Rat
  pfx_z : Option Rat
  plate_x : Option Rat
  plate_z : Option Rat
deriving DecidableEq

/-- Column lookup on a pitch event. -/
def PitchEvent.get (e : PitchEvent) : Feature → Option Rat
  | .releaseSpeed => e.release_speed
  | .releaseSpinRate => e.release_spin_rate
  | .releasePosX => e.release_pos_x
  | .releasePosZ => e.release_pos_z
  | .releaseExtension => e.release_extension
  | .pfxX => e.pfx_x
  | .pfxZ => e.pfx_z
  | .plateX => e.plate_x
  | .plateZ => e.plate_z

/-- Mean of the present values of a nullable column, as pandas `mean`
computes it: missing values are skipped, and a column whose present values
are empty has a missing mean (all-NaN group mean is NaN). -/
def meanOpt (xs : List (Option Rat)) : Option Rat :=
  let present := xs.filterMap id
  if present.isEmpty then none else some (present.sum / (present.length : Rat))

/-- Mean of feature `f` over the events of pitcher `p`, i.e. one cell of
`filtered.groupby('pitcher')[features].mean()` (line 123 of the source). -/
def featureMean (events : List PitchEvent) (p : Nat) (f : Feature) : Option Rat :=
  meanOpt ((events.filter (fun e => e.pitcher = p)).map (fun e => e.get f))

/-- Mean of feature `f` over the events with pitch type `pt`, i.e. one cell
of `data.groupby("pitch_type").agg(...)` (lines 25-35 of the source). -/
def pitchTypeMean (events : List PitchEvent) (pt : String) (f : Feature) : Option Rat :=
  meanOpt ((events.filter (fun e => e.pitch_type = pt)).map (fun e => e.get f))

/-- Group keys of `groupby('pitcher')`: the distinct pitcher ids, sorted
ascending as pandas emits them. -/
def pitcherKeys (events : List PitchEvent) : List Nat :=
  ((events.map (fun e => e.pitcher)).dedup).insertionSort (fun a b => a ≤ b)

/-- Group keys of `groupby("pitch_type")`: the distinct pitch-type codes,
sorted ascending as pandas emits them. -/
def pitchTypeKeys (events : List PitchEvent) : List String :=
  ((events.map (fun e => e.pitch_type)).dedup).insertionSort (fun a b => a ≤ b)

/-- One row of the per-pitcher feature table built at line 123 of the
source: the pitcher id and its per-feature averages. -/
structure PitcherRow where
  pitcher : Nat
  avg : Feature → Option Rat

/-- The per-pitcher feature table `filtered.groupby('pitcher')[...].mean()`
`.reset_index()`: one row per distinct pitcher, keys ascending. -/
def pitcherTableOf (events : List PitchEvent) : List PitcherRow :=
  (pitcherKeys events).map (fun p => ⟨p, fun f => featureMean events p f⟩)

/-- The six hardcoded features of `find_similar` (lines 121-122 of the
source), in their hardcoded order. -/
def simFeatures : List Feature :=
  [.releaseSpeed, .releaseSpinRate, .releasePosX, .releasePosZ, .pfxX, .pfxZ]

/-- Squared difference of two nullable cells; missing on either side
propagates (NaN arithmetic). -/
def diffSq : Option Rat → Option Rat → Option Rat
  | some a, some b => some ((a - b) ^ 2)
  | _, _ => none

/-- Sum of nullable terms; any missing term makes the sum missing (NaN
propagation through `np.linalg.norm`). -/
def optSum : List (Option Rat) → Option Rat
  | [] => some 0
  | none :: _ => none
  | some a :: rest => (optSum rest).map (fun b => a + b)

/-- Squared Euclidean distance between two coordinate vectors, missing when
any coordinate is missing. `np.linalg.norm(target_vector - row.values)` is
the square root of this value. -/
def dsqOf (tv cv : List (Option Rat)) : Option Rat :=
  optSum (List.zipWith diffSq tv cv)

/-- One output row of `find_similar`: the columns
`['pitcher', 'name', 'distance']` kept at line 148 of the source. The
distance is stored as its square `dsq` (the actual distance is
`Real.sqrt` of it, and `none` models a NaN distance). -/
structure MatchRow where
  pitcher : Nat
  name : Option String
  dsq : Option Rat
deriving DecidableEq

/-- Sort key of a nullable distance: pandas `sort_values` orders present
values ascending and places NaN after every present value. -/
def toKey : Option Rat → WithTop Rat
  | none => ⊤
  | some q => (q : WithTop Rat)

/-- The comparison used by `sort_values('distance')`. -/
def rowLE (a b : MatchRow) : Prop := toKey a.dsq ≤ toKey b.dsq

instance : DecidableRel rowLE :=
  fun a b => inferInstanceAs (Decidable (toKey a.dsq ≤ toKey b.dsq))

instance : IsTotal MatchRow rowLE := ⟨fun a b => le_total (toKey a.dsq) (toKey b.dsq)⟩

instance : IsTrans MatchRow rowLE := ⟨fun _ _ _ h h' => le_trans h h'⟩

/-- The distinct failure branches of the source, one constructor per
distinct printed-message-plus-empty-DataFrame early return. -/
inductive SimError where
  | emptyInput
  | noPitchersForType
  | targetNotFound
deriving DecidableEq

/-- The match row built for one candidate at lines 134-136 and 145 of the
source: the candidate id, its externally resolved name, and the squared
distance of its six-feature vector from the target vector `tv`. -/
def mkMatchRow (resolve : Nat → Option String) (tv : List (Option Rat))
    (r : PitcherRow) : MatchRow :=
  ⟨r.pitcher, resolve r.pitcher, dsqOf tv (simFeatures.map r.avg)⟩

/-- Lines 126-148 of the source: look the target up in the feature table
(`target_row.empty` becomes `targetNotFound`), drop the target row, attach
a distance to every remaining row, sort ascending by distance and keep the
first `topN` rows. -/
def rankSimilar (table : List PitcherRow) (targetId : Nat)
    (resolve : Nat → Option String) (topN : Nat) :
    Except SimError (List MatchRow) :=
  match table.find? (fun r => r.pitcher = targetId) with
  | none => .error .targetNotFound
  | some tgt =>
    let tv := simFeatures.map tgt.avg
    let pool := (table.filter (fun r => r.pitcher ≠ targetId)).map (mkMatchRow resolve tv)
    .ok ((pool.insertionSort rowLE).take topN)

/-- Lines 106-148 of the source (`find_similar`), with the already fetched
events passed in: empty data is the first failure branch, an empty
pitch-type filter the second, then the per-pitcher table is aggregated and
ranked. -/
def find_similar (events : List PitchEvent) (pitcherId : Nat)
    (pitchType : String) (resolve : Nat → Option String) (topN : Nat) :
    Except SimError (List MatchRow) :=
  if events.isEmpty then .error .emptyInput
  else if (events.filter (fun e => e.pitch_type = pitchType)).isEmpty then
    .error .noPitchersForType
  else
    rankSimilar (pitcherTableOf (events.filter (fun e => e.pitch_type = pitchType)))
      pitcherId resolve topN

/-- The raw Statcast column name of each feature. -/
def statcastName : Feature → String
  | .releaseSpeed => "release_speed"
  | .releaseSpinRate => "release_spin_rate"
  | .releasePosX => "release_pos_x"
  | .releasePosZ => "release_pos_z"
  | .releaseExtension => "release_extension"
  | .pfxX => "pfx_x"
  | .pfxZ => "pfx_z"
  | .plateX => "plate_x"
  | .plateZ => "plate_z"

/-- The column rename of lines 38-46 of the source: seven columns get
`avg_*` names, any other column keeps its name (pandas `rename` leaves
unmentioned columns unchanged). -/
def ppaRename (s : String) : String :=
  if s = "release_speed" then "avg_velocity"
  else if s = "release_spin_rate" then "avg_spin_rate"
  else if s = "release_pos_x" then "avg_release_x"
  else if s = "release_pos_z" then "avg_release_z"
  else if s = "release_extension" then "avg_extension"
  else if s = "pfx_x" then "avg_break_x"
  else if s = "pfx_z" then "avg_break_z"
  else s

/-- The nine aggregated features of `pitcher_pitch_averages`, in the order
of the `agg` dictionary at lines 25-35 of the source. -/
def ppaAggFeatures : List Feature :=
  [.releaseSpeed, .releaseSpinRate, .releasePosX, .releasePosZ,
   .releaseExtension, .pfxX, .pfxZ, .plateX, .plateZ]

/-- One row of the DataFrame returned by `pitcher_pitch_averages`: the
pitch-type key (made a column by `reset_index`) plus the named averaged
columns in order. -/
structure PPARow where
  pitch_type : String
  cols : List (String × Option Rat)
deriving DecidableEq

/-- Column names of a `pitcher_pitch_averages` row, the pitch-type key
first as `reset_index` places it. -/
def PPARow.columnNames (r : PPARow) : List String :=
  "pitch_type" :: r.cols.map Prod.fst

/-- Lines 17-48 of the source (`pitcher_pitch_averages`), with the already
fetched events passed in: empty data is the failure branch, otherwise one
row per distinct pitch type with the nine renamed averaged columns. -/
def pitcher_pitch_averages (events : List PitchEvent) :
    Except SimError (List PPARow) :=
  if events.isEmpty then .error .emptyInput
  else .ok ((pitchTypeKeys events).map (fun pt =>
    ⟨pt, ppaAggFeatures.map (fun f =>
      (ppaRename (statcastName f), pitchTypeMean events pt f))⟩))

/-- Modelled from the spec: the Euclidean distance formula of section 4.2,
`sqrt(sum((target[f] - candidate[f])^2 for f in features))`, used to
compare the source's distance against the spec's words. -/
noncomputable def euclideanSpec (t c : Feature → Rat) (fs : List Feature) : Real :=
  Real.sqrt ((fs.map (fun f => ((t f : Real) - (c f : Real)) ^ 2)).sum)

deriving instance DecidableEq for Except

def resolve0 : Nat → Option String := fun _ => none

def evAll (p : Nat) (pt : String) (v : Rat) : PitchEvent :=
  ⟨p, pt, some v, some v, some v, some v, some v, some v, some v, some v, some v⟩

/-- The pitcher-id column of a feature table. -/
def tableIds (table : List PitcherRow) : List Nat :=
  table.map (fun r => r.pitcher)

/-- The pitcher-id column of a ranked result. -/
def matchIds (res : List MatchRow) : List Nat :=
  res.map (fun r => r.pitcher)

/-- The non-target rows of a feature table, i.e. the candidate pool of
line 133 of the source. -/
def nonTarget (table : List PitcherRow) (targetId : Nat) : List PitcherRow :=
  table.filter (fun r => r.pitcher ≠ targetId)

/-- Appending a missing cell leaves a column mean unchanged. -/
lemma meanOpt_append_none (xs : List (Option Rat)) :
    meanOpt (xs ++ [none]) = meanOpt xs := by
  simp [meanOpt]

/-- The mean of a mapped column is the mean over the extracted present
values. -/
lemma meanOpt_map (l : List PitchEvent) (g : PitchEvent → Option Rat) :
    meanOpt (l.map g) =
      if (l.filterMap g).isEmpty then none
      else some ((l.filterMap g).sum / ((l.filterMap g).length : Rat)) := by
  simp [meanOpt, List.filterMap_map]

def cexEvA : PitchEvent :=
  ⟨7, "FF", some 10, some 100, some 1, some 1, some 1, some 1, some 1, some 1, some 1⟩

def cexEvB : PitchEvent :=
  ⟨7, "FF", none, some 200, some 1, some 1, some 1, some 1, some 1, some 1, some 1⟩

/-- C1 counterexample: event `cexEvB` is missing `release_speed`, yet
adding it to pitcher 7's group changes the group's mean of another
feature (`release_spin_rate` moves from 100 to 150): an event missing one
feature still counts toward the means of the features it carries. -/
theorem featureMean_missing_event_changes_other_mean :
    cexEvB.get .releaseSpeed = none ∧
    featureMean [cexEvA, cexEvB] 7 .releaseSpinRate ≠
      featureMean [cexEvA] 7 .releaseSpinRate := by
  with_unfolding_all decide

/-- C1 (amended): a group's mean for a requested feature is the arithmetic
mean over exactly the group's events carrying a present value for it
(per-feature exclusion, none when no event carries one), and adding an
event whose value for feature `f` is missing leaves the group's mean FOR
`f` unchanged, in both the per-pitcher and the per-pitch-type grouping
(such an event still counts toward the means of features it does carry). -/
theorem featureMean_present_only_and_missing_invariant
    (events : List PitchEvent) (p : Nat) (pt : String) (f : Feature)
    (e : PitchEvent) (hm : e.get f = none) :
    (featureMean events p f =
      (if ((events.filter (fun x => x.pitcher = p)).filterMap (fun x => x.get f)).isEmpty
       then none
       else some (((events.filter (fun x => x.pitcher = p)).filterMap (fun x => x.get f)).sum /
         (((events.filter (fun x => x.pitcher = p)).filterMap (fun x => x.get f)).length : Rat)))) ∧
    featureMean (events ++ [e]) p f = featureMean events p f ∧
    pitchTypeMean (events ++ [e]) pt f = pitchTypeMean events pt f := by
  refine ⟨?_, ?_, ?_⟩
  · simp [featureMean, meanOpt_map]
  · unfold featureMean
    by_cases hp : e.pitcher = p
    · simp [List.filter_append, List.filter_cons, hp, hm, meanOpt_append_none]
    · simp [List.filter_append, List.filter_cons, hp]
  · unfold pitchTypeMean
    by_cases hq : e.pitch_type = pt
    · simp [List.filter_append, List.filter_cons, hq, hm, meanOpt_append_none]
    · simp [List.filter_append, List.filter_cons, hq]

/-- C1 witness: concrete instance of the amended theorem, at pitcher 7 and
a spin-rate-only event. -/
theorem featureMean_missing_invariant_witness :
    featureMean [cexEvA] 7 .releaseSpeed = some 10 ∧
    featureMean ([cexEvA] ++ [cexEvB]) 7 .releaseSpeed = featureMean [cexEvA] 7 .releaseSpeed := by
  have h := featureMean_present_only_and_missing_invariant [cexEvA] 7 ("FF") .releaseSpeed
    cexEvB (by with_unfolding_all decide)
  exact ⟨by rw [h.1]; with_unfolding_all decide, h.2.1⟩

/-- C4: the group keys of both aggregations are exactly the distinct
grouping keys occurring among the input events: each key with at least one
event appears exactly once (`Nodup`), no key without an event appears, and
the per-pitcher table has exactly one row per key. -/
theorem group_keys_exactly_distinct_input_keys (events : List PitchEvent) :
    (pitcherKeys events).Nodup ∧
    (∀ p : Nat, p ∈ pitcherKeys events ↔ ∃ e ∈ events, e.pitcher = p) ∧
    tableIds (pitcherTableOf events) = pitcherKeys events ∧
    (pitchTypeKeys events).Nodup ∧
    (∀ pt : String, pt ∈ pitchTypeKeys events ↔ ∃ e ∈ events, e.pitch_type = pt) := by
  refine ⟨?_, ?_, ?_, ?_, ?_⟩
  · exact ((List.perm_insertionSort _ _).nodup_iff).mpr (List.nodup_dedup _)
  · intro p
    simp [pitcherKeys, List.mem_dedup, eq_comm]
  · simp [tableIds, pitcherTableOf, List.map_map, Function.comp_def]
  · exact ((List.perm_insertionSort _ _).nodup_iff).mpr (List.nodup_dedup _)
  · intro pt
    simp [pitchTypeKeys, List.mem_dedup, eq_comm]

/-- C5: ranking fails with the target-not-found error exactly when the
target id is not a key of the feature table; when the target is present
the result is never that error. -/
theorem targetNotFound_iff_absent (table : List PitcherRow) (targetId : Nat)
    (resolve : Nat → Option String) (topN : Nat) :
    rankSimilar table targetId resolve topN = .error .targetNotFound ↔
      targetId ∉ tableIds table := by
  unfold rankSimilar
  cases h : table.find? (fun r => r.pitcher = targetId) with
  | none =>
    simp only [List.find?_eq_none] at h
    refine iff_of_true rfl ?_
    simp only [tableIds, List.mem_map]
    rintro ⟨r, hr, hpr⟩
    exact (by simpa using h r hr : ¬ r.pitcher = targetId) hpr
  | some tgt =>
    have htgt : tgt.pitcher = targetId := by simpa using List.find?_some h
    have hmem : tgt ∈ table := List.mem_of_find?_eq_some h
    refine iff_of_false (by simp) ?_
    intro habs
    exact habs (List.mem_map.mpr ⟨tgt, hmem, htgt⟩)

/-- When both vectors are complete over `fs`, the squared distance is the
sum of coordinate-wise squared differences, taken over `fs` in the same
order on both sides. -/
lemma dsqOf_complete (fs : List Feature) (ta ca : Feature → Option Rat)
    (t c : Feature → Rat)
    (ht : ∀ f ∈ fs, ta f = some (t f)) (hc : ∀ f ∈ fs, ca f = some (c f)) :
    dsqOf (fs.map ta) (fs.map ca) =
      some ((fs.map (fun f => (t f - c f) ^ 2)).sum) := by
  induction fs with
  | nil => simp [dsqOf, optSum]
  | cons a l ih =>
    have hta : ta a = some (t a) := ht a (List.mem_cons_self a l)
    have hca : ca a = some (c a) := hc a (List.mem_cons_self a l)
    have hrest := ih (fun f hf => ht f (List.mem_cons_of_mem a hf))
      (fun f hf => hc f (List.mem_cons_of_mem a hf))
    simp only [List.map_cons, dsqOf, List.zipWith_cons_cons, optSum, hta, hca, diffSq]
    simp only [dsqOf] at hrest
    rw [hrest]
    simp [List.sum_cons]

/-- Casting the rational sum of squares to the reals commutes with the
coordinate-wise formula. -/
lemma cast_sum_sq (fs : List Feature) (t c : Feature → Rat) :
    (((fs.map (fun f => (t f - c f) ^ 2)).sum : Rat) : Real) =
      (fs.map (fun f => ((t f : Real) - (c f : Real)) ^ 2)).sum := by
  induction fs with
  | nil => simp
  | cons a l ih =>
    simp only [List.map_cons, List.sum_cons, Rat.cast_add, ih]
    push_cast
    ring

/-- C2: the distance assigned to a candidate with a complete vector is the
unnormalized Euclidean distance to the target's vector, computed
coordinate-wise over exactly the six hardcoded features in the same fixed
order for target and candidate: the stored squared distance is the sum of
squared coordinate differences, its square root is exactly the spec's
`sqrt(sum((target[f] - candidate[f])^2))` with no scaling, and the feature
list is the hardcoded six. -/
theorem distance_is_raw_euclidean_over_six_features
    (tgt c : PitcherRow) (resolve : Nat → Option String) (t cf : Feature → Rat)
    (ht : ∀ f ∈ simFeatures, tgt.avg f = some (t f))
    (hc : ∀ f ∈ simFeatures, c.avg f = some (cf f)) :
    (mkMatchRow resolve (simFeatures.map tgt.avg) c).dsq =
        some ((simFeatures.map (fun f => (t f - cf f) ^ 2)).sum) ∧
    Real.sqrt (((simFeatures.map (fun f => (t f - cf f) ^ 2)).sum : Rat) : Real) =
        euclideanSpec t cf simFeatures ∧
    simFeatures = [.releaseSpeed, .releaseSpinRate, .releasePosX, .releasePosZ, .pfxX, .pfxZ] := by
  refine ⟨?_, ?_, rfl⟩
  · exact dsqOf_complete simFeatures tgt.avg c.avg t cf ht hc
  · rw [euclideanSpec, cast_sum_sq]

def wTgtRow : PitcherRow := ⟨1, fun _ => some 10⟩

def wCandRow : PitcherRow := ⟨2, fun _ => some 13⟩

def wTgtFun : Feature → Rat := fun _ => 10

def wCandFun : Feature → Rat := fun _ => 13

/-- C2 witness: at the concrete complete vectors above, the assigned
squared distance evaluates to 54 (six coordinates, each differing by 3). -/
theorem distance_is_raw_euclidean_witness :
    (mkMatchRow resolve0 (simFeatures.map wTgtRow.avg) wCandRow).dsq = some 54 := by
  have h := (distance_is_raw_euclidean_over_six_features wTgtRow wCandRow resolve0
    wTgtFun wCandFun (fun f _ => rfl) (fun f _ => rfl)).1
  rw [h]
  with_unfolding_all decide

/-- A successful ranking comes from a found target row and is the
truncated stable sort of the candidate pool. -/
lemma rankSimilar_ok_inv (table : List PitcherRow) (targetId : Nat)
    (resolve : Nat → Option String) (topN : Nat) (res : List MatchRow)
    (h : rankSimilar table targetId resolve topN = .ok res) :
    ∃ tgt, table.find? (fun r => r.pitcher = targetId) = some tgt ∧
      res = ((((table.filter (fun r => r.pitcher ≠ targetId)).map
        (mkMatchRow resolve (simFeatures.map tgt.avg))).insertionSort rowLE).take topN) := by
  unfold rankSimilar at h
  split at h
  · exact absurd h (by simp)
  · next tgt hf =>
      refine ⟨tgt, hf, ?_⟩
      injection h with h'
      exact h'.symm

/-- C7: the target pitcher's id never appears among the returned matches:
line 133 of the source drops the target row before distances are
assigned. -/
theorem target_never_in_result (table : List PitcherRow) (targetId : Nat)
    (resolve : Nat → Option String) (topN : Nat) (res : List MatchRow)
    (h : rankSimilar table targetId resolve topN = .ok res) :
    targetId ∉ matchIds res := by
  rcases rankSimilar_ok_inv table targetId resolve topN res h with ⟨tgt, hf, hres⟩
  subst hres
  intro hmem
  simp only [matchIds, List.mem_map] at hmem
  rcases hmem with ⟨r, hr, hrp⟩
  have hr1 := List.mem_of_mem_take hr
  rw [List.mem_insertionSort] at hr1
  rcases List.mem_map.mp hr1 with ⟨c, hcf, rfl⟩
  rcases List.mem_filter.mp hcf with ⟨_, hcne⟩
  have hcn : c.pitcher ≠ targetId := by simpa using hcne
  exact hcn (by simpa [mkMatchRow] using hrp)

def wTable : List PitcherRow := [wTgtRow, wCandRow]

/-- C7 witness: for the concrete two-row table, target id 1 is absent from
the returned match ids. -/
theorem target_never_in_result_witness :
    (1 : Nat) ∉ matchIds [⟨2, none, some 54⟩] :=
  target_never_in_result wTable 1 resolve0 5 [⟨2, none, some 54⟩]
    (by with_unfolding_all decide)

/-- Length of a successful result, `none` on an error: used to state that a
run both succeeds and returns a given number of rows. -/
def resultLength : Except SimError (List MatchRow) → Option Nat
  | .ok l => some l.length
  | .error _ => none

/-- C8: when the target is present, ranking succeeds and returns exactly
`min k topN` rows, where `k` is the number of candidate (non-target) rows
of the table: the first `topN` rows after sorting when `k ≥ topN`, and all
`k` rows with no error when `k < topN`. -/
theorem returns_min_of_candidates_topN (table : List PitcherRow) (targetId : Nat)
    (resolve : Nat → Option String) (topN : Nat)
    (hpos : 0 < topN) (htid : targetId ∈ tableIds table) :
    resultLength (rankSimilar table targetId resolve topN) =
      some (min (nonTarget table targetId).length topN) := by
  obtain ⟨tgt, hf⟩ : ∃ tgt, table.find? (fun r => r.pitcher = targetId) = some tgt := by
    simp only [tableIds, List.mem_map] at htid
    rcases htid with ⟨r, hr, hrp⟩
    cases hfind : table.find? (fun x => x.pitcher = targetId) with
    | some tgt => exact ⟨tgt, rfl⟩
    | none =>
      rw [List.find?_eq_none] at hfind
      exact absurd (by simpa using hfind r hr) (by simp [hrp])
  unfold rankSimilar
  rw [hf]
  simp [resultLength, List.length_take, (List.perm_insertionSort rowLE _).length_eq,
    nonTarget, Nat.min_comm]

/-- C8 witness: the concrete two-row table has one candidate, and asking
for five matches returns exactly `min 1 5` rows. -/
theorem returns_min_witness :
    resultLength (rankSimilar wTable 1 resolve0 5) = some (min (nonTarget wTable 1).length 5) :=
  returns_min_of_candidates_topN wTable 1 resolve0 5 (by decide)
    (by with_unfolding_all decide)

lemma toKey_eq_top_iff (o : Option Rat) : toKey o = ⊤ ↔ o = none := by
  cases o <;> simp [toKey]

def wEvents : List PitchEvent :=
  [evAll 1 ("FF") 10, evAll 2 ("FF") 13, evAll 3 ("FF") 14]

def tieEvents : List PitchEvent :=
  [evAll 1 ("FF") 10, evAll 2 ("FF") 13, evAll 3 ("FF") 7]

/-- C3 (code bug): the source sorts with `sort_values('distance')` on the
distance key alone and implements no entity-id tie-break. At this input
candidates 2 and 3 genuinely tie — both are assigned squared distance 54
and both tied rows survive into the returned matches — and both relative
orders of the tied rows satisfy the distance-key order that `sort_values`
sorts by, so the sort key the code uses does not determine the ascending-id
tie order the claim requires; the model's sort merely picks one of the two
admissible orders. -/
theorem sort_key_admits_both_tie_orders :
    find_similar tieEvents 1 ("FF") resolve0 5 =
      .ok [⟨2, none, some 54⟩, ⟨3, none, some 54⟩] ∧
    MatchRow.dsq ⟨2, none, some 54⟩ = MatchRow.dsq ⟨3, none, some 54⟩ ∧
    MatchRow.pitcher ⟨2, none, some 54⟩ ≠ MatchRow.pitcher ⟨3, none, some 54⟩ ∧
    ([⟨2, none, some 54⟩, ⟨3, none, some 54⟩] : List MatchRow).Pairwise rowLE ∧
    ([⟨3, none, some 54⟩, ⟨2, none, some 54⟩] : List MatchRow).Pairwise rowLE := by
  with_unfolding_all decide

/-- Zipping the per-feature difference over a shared feature list is the
per-feature map. -/
lemma zipWith_diffSq_map (fs : List Feature) (ta ca : Feature → Option Rat) :
    List.zipWith diffSq (fs.map ta) (fs.map ca) =
      fs.map (fun g => diffSq (ta g) (ca g)) := by
  induction fs with
  | nil => rfl
  | cons a l ih => simp [ih]

/-- A missing term poisons the whole sum (NaN propagation). -/
lemma optSum_none_mem (l : List (Option Rat)) (h : none ∈ l) : optSum l = none := by
  induction l with
  | nil => cases h
  | cons o rest ih =>
    cases o with
    | none => rfl
    | some a =>
      have hr : none ∈ rest := by
        rcases List.mem_cons.mp h with h' | h'
        · exact absurd h' (by simp)
        · exact h'
      simp [optSum, ih hr]

/-- A candidate vector missing any of the ranked features gets a missing
squared distance. -/
lemma dsqOf_missing (fs : List Feature) (ta ca : Feature → Option Rat)
    (f : Feature) (hf : f ∈ fs) (hm : ca f = none) :
    dsqOf (fs.map ta) (fs.map ca) = none := by
  unfold dsqOf
  rw [zipWith_diffSq_map]
  apply optSum_none_mem
  refine List.mem_map.mpr ⟨f, hf, ?_⟩
  rw [hm]
  cases ta f <;> rfl

/-- Rows with a present distance precede rows with a missing one. -/
def nanLast (a b : MatchRow) : Prop := a.dsq = none → b.dsq = none

def cexAvgFull : Feature → Option Rat := fun _ => some 1

def cexAvgMissing : Feature → Option Rat :=
  fun f => if f = Feature.releaseSpeed then none else some 1

def cexTable : List PitcherRow := [⟨1, cexAvgFull⟩, ⟨3, cexAvgMissing⟩]

/-- C6 counterexample: candidate 3's vector is missing the required
release-speed feature, yet it is not excluded from the ranking: it is
assigned a missing (NaN) distance and appears in the returned matches. -/
theorem missing_candidate_still_returned :
    Feature.releaseSpeed ∈ simFeatures ∧
    cexAvgMissing Feature.releaseSpeed = none ∧
    rankSimilar cexTable 1 resolve0 5 = .ok [⟨3, none, none⟩] := by
  with_unfolding_all decide

/-- C6 (amended): a candidate whose vector is missing a required feature
is not dropped; it is assigned a missing (NaN) distance — never a zero or
other numeric placeholder — and is sorted after every row with a present
distance, so it appears in the returned matches only when `topN` is not
exhausted by present-distance candidates. -/
theorem missing_feature_gets_nan_and_sorts_last (table : List PitcherRow)
    (targetId : Nat) (resolve : Nat → Option String) (topN : Nat)
    (res : List MatchRow) (c : PitcherRow) (f : Feature)
    (hnd : (tableIds table).Nodup)
    (h : rankSimilar table targetId resolve topN = .ok res)
    (hc : c ∈ table) (hf : f ∈ simFeatures) (hmiss : c.avg f = none) :
    (∀ r ∈ res, r.pitcher = c.pitcher → r.dsq = none) ∧ res.Pairwise nanLast := by
  rcases rankSimilar_ok_inv table targetId resolve topN res h with ⟨tgt, hfind, hres⟩
  subst hres
  constructor
  · intro r hr hrp
    have hr1 := List.mem_of_mem_take hr
    rw [List.mem_insertionSort] at hr1
    rcases List.mem_map.mp hr1 with ⟨c', hc'f, rfl⟩
    have hc' : c' ∈ table := (List.mem_filter.mp hc'f).1
    have hcc : c' = c :=
      List.inj_on_of_nodup_map (by simpa [tableIds] using hnd) hc' hc
        (by simpa [mkMatchRow] using hrp)
    rw [mkMatchRow, hcc]
    exact dsqOf_missing simFeatures tgt.avg c.avg f hf hmiss
  · have hsorted : (List.insertionSort rowLE
        ((table.filter (fun r => r.pitcher ≠ targetId)).map
          (mkMatchRow resolve (simFeatures.map tgt.avg)))).Pairwise rowLE :=
      List.sorted_insertionSort rowLE _
    refine (hsorted.sublist (List.take_sublist _ _)).imp ?_
    intro a b hab hnone
    have : (⊤ : WithTop Rat) ≤ toKey b.dsq := by
      rw [← (toKey_eq_top_iff a.dsq).mpr hnone]
      exact hab
    exact (toKey_eq_top_iff b.dsq).mp (top_le_iff.mp this)

/-- C6 witness: at the concrete table above, the returned row for the
incomplete candidate indeed carries a missing distance. -/
theorem missing_feature_nan_witness :
    MatchRow.dsq ⟨3, none, none⟩ = none := by
  have h := missing_feature_gets_nan_and_sorts_last cexTable 1 resolve0 5
    [⟨3, none, none⟩] ⟨3, cexAvgMissing⟩ Feature.releaseSpeed
    (by with_unfolding_all decide) (by with_unfolding_all decide)
    (List.mem_cons_of_mem _ (List.mem_cons_self _ _))
    (by with_unfolding_all decide) (by with_unfolding_all decide)
  exact h.1 ⟨3, none, none⟩ (List.mem_cons_self _ _) rfl

/-- The ranking stage can only fail with target-not-found: the input-data
failure branches happen before it. -/
lemma rankSimilar_ne_input_errors (table : List PitcherRow) (targetId : Nat)
    (resolve : Nat → Option String) (topN : Nat) :
    rankSimilar table targetId resolve topN ≠ .error .emptyInput ∧
    rankSimilar table targetId resolve topN ≠ .error .noPitchersForType := by
  unfold rankSimilar
  cases table.find? (fun r => r.pitcher = targetId) <;> simp

/-- C9: aggregation and the full pipeline fail with the empty-input error
exactly when the fetched event list is empty, and an empty result of a
well-formed pitch-type filter over non-empty data is reported as the
distinct no-pitchers-for-type failure, never as the empty-input one. -/
theorem empty_input_error_iff (events : List PitchEvent) (pitcherId : Nat)
    (pitchType : String) (resolve : Nat → Option String) (topN : Nat) :
    (pitcher_pitch_averages events = .error .emptyInput ↔ events = []) ∧
    (find_similar events pitcherId pitchType resolve topN = .error .emptyInput ↔ events = []) ∧
    (events ≠ [] → events.filter (fun e => e.pitch_type = pitchType) = [] →
      find_similar events pitcherId pitchType resolve topN = .error .noPitchersForType) := by
  refine ⟨⟨?_, ?_⟩, ⟨?_, ?_⟩, ?_⟩
  · intro h
    unfold pitcher_pitch_averages at h
    split_ifs at h with he
    exact List.isEmpty_iff.mp he
  · intro h
    subst h
    rfl
  · intro h
    unfold find_similar at h
    split_ifs at h with h1 h2
    · exact List.isEmpty_iff.mp h1
    · exact absurd h (by simp)
    · exact absurd h (rankSimilar_ne_input_errors _ _ _ _).1
  · intro h
    subst h
    rfl
  · intro hne hflt
    unfold find_similar
    rw [if_neg (by simpa [List.isEmpty_iff] using hne), if_pos (by simp [hflt])]

/-- C9 witness: non-empty events with no pitch of the requested type give
the no-pitchers-for-type failure, not the empty-input one. -/
theorem empty_input_error_witness :
    find_similar wEvents 1 ("CU") resolve0 5 = .error .noPitchersForType :=
  (empty_input_error_iff wEvents 1 ("CU") resolve0 5).2.2
    (by with_unfolding_all decide) (by with_unfolding_all decide)

/-- The ten column names of the claim: the pitch-type key, seven renamed
averages, and the two plate columns that keep their raw names. -/
def ppaExpectedNames : List String :=
  ["pitch_type", "avg_velocity", "avg_spin_rate", "avg_release_x", "avg_release_z",
   "avg_extension", "avg_break_x", "avg_break_z", "plate_x", "plate_z"]

/-- C10: every row of a successful `pitcher_pitch_averages` result has the
pitch-type key plus the nine averaged features as columns, of which exactly
the seven in the rename map get `avg_*` names while `plate_x` and `plate_z`
keep their raw names. -/
theorem ppa_columns_partial_rename (events : List PitchEvent) (rows : List PPARow)
    (h : pitcher_pitch_averages events = .ok rows) :
    ∀ row ∈ rows, row.columnNames = ppaExpectedNames := by
  intro row hrow
  unfold pitcher_pitch_averages at h
  split_ifs at h with he
  injection h with h'
  subst h'
  rcases List.mem_map.mp hrow with ⟨pt, hpt, rfl⟩
  simp only [PPARow.columnNames, List.map_map, Function.comp_def]
  with_unfolding_all decide

def w10row : PPARow :=
  ⟨"FF", [("avg_velocity", some 10), ("avg_spin_rate", some 10), ("avg_release_x", some 10),
    ("avg_release_z", some 10), ("avg_extension", some 10), ("avg_break_x", some 10),
    ("avg_break_z", some 10), ("plate_x", some 10), ("plate_z", some 10)]⟩

/-- C10 witness: the concrete single-event run produces a row whose column
names are exactly the expected ten. -/
theorem ppa_columns_witness : w10row.columnNames = ppaExpectedNames :=
  ppa_columns_partial_rename [evAll 1 ("FF") 10] [w10row]
    (by with_unfolding_all decide) w10row (List.mem_cons_self _ _)
